import Mathlib

/-!
Verification of `src/nurbstk/knots.h` (NURBSToolkit knot-vector utilities).

The C++ code is generic over a floating-point scalar `T`; the embedding works
over exact rationals `ℚ`, so every arithmetic identity below is exact.
Control points (`glm::vec<T, n>`) are embedded as pairs `ℚ × ℚ` (the claims
only exercise the 2-D instantiation; the source treats components
independently, so the dimension is irrelevant to the algorithms).
`std::vector` is embedded as `List`; in-place mutation becomes explicit
input/output passing, and a builder that reports success through its `bool`
return while mutating its output argument becomes a function returning
`Bool × List ℚ` (the list being the final contents of the argument).
Out-of-range `operator[]` accesses are undefined behaviour in C++; the total
embedding gives them a default value (`0`), and every theorem below either
carries the bound that keeps all accesses in range or (for
`isKnotVectorClosed`, where reachability of the out-of-range access is itself
the property at stake) uses `Option`-returning indexing.
-/

/-- A 2-D control point, embedding `glm::vec<T, 2>`. -/
abbrev Pt := ℚ × ℚ

/-- Componentwise scalar multiplication on control points. -/
def ptSmul (a : ℚ) (p : Pt) : Pt := (a * p.1, a * p.2)

/-- Componentwise addition of control points. -/
def ptAdd (p q : Pt) : Pt := (p.1 + q.1, p.2 + q.2)

/-- The loop `for (T u = 0.0; u <= 1.0; u += step) knots.push_back(u);` from
`makeUniformKnotVector` (knots.h lines 28-31).  In exact arithmetic the loop
starting at `0` with `step = 1/(nKnots-1) > 0` pushes exactly `nKnots` values
and then stops at the guard, so any `fuel ≥ nKnots + 1` is never exhausted
(lemma `uniformLoop_run` below computes the loop exactly). -/
def uniformLoop (step : ℚ) : ℕ → ℚ → List ℚ
  | 0, _ => []
  | fuel + 1, u => if u ≤ 1 then u :: uniformLoop step fuel (u + step) else []

/-- Embedding of `makeUniformKnotVector` (knots.h lines 16-34).
Returns the C++ `bool` return value together with the final contents of the
output argument `knots`. -/
def makeUniformKnotVector (degree : ℕ) (nCtrlPts : ℕ) (knots : List ℚ) :
    Bool × List ℚ :=
  if nCtrlPts < degree + 1 then (false, knots)
  else
    let nKnots := nCtrlPts + degree + 1
    let step : ℚ := 1 / ((nKnots : ℚ) - 1)
    (true, uniformLoop step (nKnots + 1) 0)

/-- Embedding of `makeClampedUniformKnotVector` (knots.h lines 36-69).
`nIntKnots` is a C++ `int`, hence the `ℤ` with its sign test; the interior
knots are generated index-based as `i * step` exactly as in the source. -/
def makeClampedUniformKnotVector (degree : ℕ) (nCtrlPts : ℕ) (knots : List ℚ) :
    Bool × List ℚ :=
  if nCtrlPts < degree + 1 then (false, knots)
  else
    let nKnots := nCtrlPts + degree + 1
    let nIntKnots : ℤ := (nKnots : ℤ) - 2 * (degree : ℤ)
    let interior : List ℚ :=
      if 0 < nIntKnots then
        let step : ℚ := 1 / ((nIntKnots : ℚ) - 1)
        (List.range nIntKnots.toNat).map (fun i : ℕ => (i : ℚ) * step)
      else []
    (true, List.replicate degree 0 ++ interior ++ List.replicate degree 1)

/-- Embedding of `clampKnotVectorLeft` (knots.h lines 77-83): read
`start = knots[degree]`, then the loop `for (i = 0; i < degree; i++)
knots[i] = start;`. -/
def clampKnotVectorLeft (degree : ℕ) (knots : List ℚ) : List ℚ :=
  let start := knots.getD degree 0
  (List.range degree).foldl (fun ks i => ks.set i start) knots

/-- Embedding of `clampKnotVectorRight` (knots.h lines 85-91). -/
def clampKnotVectorRight (degree : ℕ) (knots : List ℚ) : List ℚ :=
  let e := knots.getD (knots.length - degree - 1) 0
  (List.range degree).foldl (fun ks i => ks.set (ks.length - 1 - i) e) knots

/-- Embedding of `clampKnotVector` (knots.h lines 71-75): left then right. -/
def clampKnotVector (degree : ℕ) (knots : List ℚ) : List ℚ :=
  clampKnotVectorRight degree (clampKnotVectorLeft degree knots)

/-- Embedding of `isKnotVectorMonotonic` (knots.h lines 93-96), i.e.
`std::is_sorted`: adjacent-pair comparison, short-circuiting. -/
def isKnotVectorMonotonic : List ℚ → Bool
  | [] => true
  | [_] => true
  | a :: b :: rest => decide (a ≤ b) && isKnotVectorMonotonic (b :: rest)

/-- `std::numeric_limits<double>::epsilon()`, the machine epsilon used by
`isKnotVectorClosed`. -/
def machineEps : ℚ := 1 / 2 ^ 52

/-- Checked signed indexing into the knot vector: `none` models the C++
out-of-range (undefined-behaviour) access.  The C++ index expression
`knots.size() - degree - 2 + i` is computed in `size_t`, so a mathematically
negative value wraps to a huge positive index, which is equally out of range;
`ℤ` with a sign test captures the same observable. -/
def intGet (l : List ℚ) (j : ℤ) : Option ℚ :=
  if 0 ≤ j then l.get? j.toNat else none

/-- The loop of `isKnotVectorClosed` (knots.h lines 98-107) over the list of
loop indices `i`: compare `knots[i]` with `knots[size - degree - 2 + i]`,
returning `false` at the first mismatch beyond epsilon; `none` models an
out-of-range access. -/
def closedGo (degree : ℕ) (knots : List ℚ) : List ℕ → Option Bool
  | [] => some true
  | i :: rest =>
    match knots.get? i,
        intGet knots ((knots.length : ℤ) - (degree : ℤ) - 2 + (i : ℤ)) with
    | some a, some b =>
      if machineEps < |a - b| then some false else closedGo degree knots rest
    | _, _ => none

/-- Embedding of `isKnotVectorClosed` (knots.h lines 98-107): the loop runs
`i` from `0` to `degree + 1` inclusive. -/
def isKnotVectorClosed (degree : ℕ) (knots : List ℚ) : Option Bool :=
  closedGo degree knots (List.range (degree + 2))

/-- Modelled from the spec: `findSpan` is called by the insertion routines but
its definition is not under `src/` (the spec calls it the span-finder
primitive).  Per the spec it locates the index `span` with
`knots[span] <= u < knots[span+1]`, "clamping to the last valid span rather
than overflowing" when `u` reaches the right end: the largest index
`i ≤ size - 2` with `knots[i] ≤ u` (default `0`).  The `deg` argument mirrors
the C++ call `findSpan(u, deg, knots)`. -/
def findSpan (u : ℚ) (deg : ℕ) (knots : List ℚ) : ℕ :=
  let _ := deg
  ((List.range (knots.length - 1)).filter
    (fun i => decide (knots.getD i 0 ≤ u))).foldl (fun acc i => max acc i) 0

/-- The blend loop of `curveInsertKnot` (knots.h lines 115-119):
`for (int i = span - deg + 1; i <= span; ++i)` runs exactly `deg` times with
`i = span - deg + 1 + t`; it reads the already-updated neighbour `cp[i-1]`
and the post-insertion knot vector, exactly as the source does.  The index is
kept in `ℕ` (`span + 1 + t - deg`, which equals the C++ `int` value whenever
`span + 1 + t ≥ deg`); a run with `span + 1 < deg`, like an access to
`cp[i-1]` with `i = 0`, is an out-of-range access in C++ (undefined
behaviour), which the total embedding replaces with default values. -/
def curveBlend (u : ℚ) (deg : ℕ) (ks : List ℚ) (span : ℕ) (cp : List Pt) :
    List Pt :=
  (List.range deg).foldl (fun r t =>
    let i : ℕ := span + 1 + t - deg
    let a := (u - ks.getD i 0) / (ks.getD (i + deg) 0 - ks.getD i 0)
    r.set i (ptAdd (ptSmul (1 - a) (r.getD (i - 1) (0, 0)))
      (ptSmul a (r.getD i (0, 0))))) cp

/-- Embedding of `curveInsertKnot` (knots.h lines 109-120).  The source
performs `knots.insert(span, u)` and `cp.insert(span, tvecn(0.0))`, i.e. the
new knot and the placeholder control point land **at** index `span`, then runs
the blend loop over the mutated containers.  The function returns `void` in
C++ (there is no error channel); the embedding returns the final contents of
the two containers. -/
def curveInsertKnot (u : ℚ) (deg : ℕ) (knots : List ℚ) (cp : List Pt) :
    List ℚ × List Pt :=
  let span := findSpan u deg knots
  let knots1 := knots.insertIdx span u
  let cp1 := cp.insertIdx span (0, 0)
  (knots1, curveBlend u deg knots1 span cp1)

/-- The per-row blend loop of `surfaceInsertKnotU` (knots.h lines 130-136):
for row index `i`, `for (int j = span - deg + 1; j <= span; ++j)` with
`a = (u - knots[i]) / (knots[i + deg] - knots[j])` — the row index `i`
appears in the knot accesses, exactly as in the source. -/
def surfaceBlendRow (u : ℚ) (deg : ℕ) (ks : List ℚ) (span : ℕ) (i : ℕ)
    (row : List Pt) : List Pt :=
  (List.range deg).foldl (fun r t =>
    let j : ℕ := span + 1 + t - deg
    let a := (u - ks.getD i 0) / (ks.getD (i + deg) 0 - ks.getD j 0)
    r.set j (ptAdd (ptSmul (1 - a) (r.getD (j - 1) (0, 0)))
      (ptSmul a (r.getD j (0, 0))))) row

/-- Embedding of `surfaceInsertKnotU` (knots.h lines 122-137): insert the knot
once, insert a placeholder at `span` in every row, then run the per-row blend
loop for every row index. -/
def surfaceInsertKnotU (u : ℚ) (deg : ℕ) (knots : List ℚ)
    (cp : List (List Pt)) : List ℚ × List (List Pt) :=
  let span := findSpan u deg knots
  let knots1 := knots.insertIdx span u
  let cp1 := cp.map (fun row => row.insertIdx span ((0 : ℚ), (0 : ℚ)))
  (knots1,
    (List.range cp1.length).map (fun i =>
      surfaceBlendRow u deg knots1 span i (cp1.getD i [])))

/-- Modelled from the spec: the Cox-de Boor basis function `N_{i,p}(u)`.
B-spline curve evaluation is repository code not under `src/` (the spec's
shape-preservation property refers to "evaluating the B-spline curve").
`ℚ` division by zero is `0`, which realises the standard `0/0 = 0`
convention of the recurrence. -/
def basisFun (ks : List ℚ) (u : ℚ) : ℕ → ℕ → ℚ
  | 0, i => if ks.getD i 0 ≤ u ∧ u < ks.getD (i + 1) 0 then 1 else 0
  | p + 1, i =>
    (u - ks.getD i 0) / (ks.getD (i + p + 1) 0 - ks.getD i 0) *
        basisFun ks u p i +
      (ks.getD (i + p + 2) 0 - u) / (ks.getD (i + p + 2) 0 - ks.getD (i + 1) 0) *
        basisFun ks u p (i + 1)

/-- Modelled from the spec: B-spline curve evaluation
`C(u) = Σ_i N_{i,deg}(u) · P_i` over the control points. -/
def evalCurve (deg : ℕ) (ks : List ℚ) (cps : List Pt) (u : ℚ) : Pt :=
  (List.range cps.length).foldl
    (fun acc i => ptAdd acc (ptSmul (basisFun ks u deg i) (cps.getD i (0, 0))))
    (0, 0)

/-- Modelled from the spec: Boehm knot insertion as §4.4 of the spec states it
(steps 1-4): knot inserted immediately after index `span`, window
`span-deg+1 .. span` recomputed from the **pre-insertion** knots and control
points with `a_i = (u - knots[i]) / (knots[i+deg] - knots[i])`. Used to check
that the spec's stated algorithm is shape-preserving where the source is not. -/
def boehmInsert (u : ℚ) (deg : ℕ) (ks : List ℚ) (cps : List Pt) :
    List ℚ × List Pt :=
  let span := findSpan u deg ks
  let ks1 := ks.insertIdx (span + 1) u
  let cps1 := (List.range (cps.length + 1)).map (fun i =>
    if i ≤ span - deg then cps.getD i (0, 0)
    else if span + 1 ≤ i then cps.getD (i - 1) (0, 0)
    else
      let a := (u - ks.getD i 0) / (ks.getD (i + deg) 0 - ks.getD i 0)
      ptAdd (ptSmul (1 - a) (cps.getD (i - 1) (0, 0)))
        (ptSmul a (cps.getD i (0, 0))))
  (ks1, cps1)

/-! ## Helper lemmas -/

theorem foldl_set_length (v : ℚ) (k : ℕ) (ks : List ℚ) :
    ((List.range k).foldl (fun l i => l.set i v) ks).length = ks.length := by
  induction k with
  | zero => simp
  | succ m ih => rw [List.range_succ, List.foldl_append]; simp [ih]

theorem foldl_set_getD (v : ℚ) (k j : ℕ) (ks : List ℚ) :
    ((List.range k).foldl (fun l i => l.set i v) ks).getD j 0 =
      if j < k ∧ j < ks.length then v else ks.getD j 0 := by
  induction k with
  | zero => simp
  | succ m ih =>
    rw [List.range_succ, List.foldl_append]
    simp only [List.foldl_cons, List.foldl_nil]
    rw [List.getD_eq_getElem?_getD, List.getElem?_set, foldl_set_length]
    rcases eq_or_ne m j with rfl | hne
    · rw [if_pos rfl]
      by_cases hlen : m < ks.length
      · rw [if_pos hlen, if_pos ⟨by omega, hlen⟩]
        rfl
      · rw [if_neg hlen, if_neg (by omega)]
        rw [List.getD_eq_getElem?_getD, List.getElem?_eq_none (by omega)]
    · rw [if_neg hne, ← List.getD_eq_getElem?_getD, ih]
      by_cases hj : j < m ∧ j < ks.length
      · rw [if_pos hj, if_pos ⟨by omega, hj.2⟩]
      · rw [if_neg hj, if_neg (by rintro ⟨h1, h2⟩; exact hj ⟨by omega, h2⟩)]

/-! ## Claim theorems -/

/-- C6: for every `nCtrlPts < degree + 1` both knot-vector builders return
`false` and leave the caller-supplied output container exactly as it was. -/
theorem builders_fail_leave_unchanged (d n : ℕ) (ks : List ℚ) (h : n < d + 1) :
    makeUniformKnotVector d n ks = (false, ks) ∧
    makeClampedUniformKnotVector d n ks = (false, ks) := by
  constructor
  · unfold makeUniformKnotVector; rw [if_pos h]
  · unfold makeClampedUniformKnotVector; rw [if_pos h]

/-- Witness for C6 at `degree = 2`, `nCtrlPts = 1`, prior contents `[5]`. -/
theorem builders_fail_leave_unchanged_witness :
    1 < 2 + 1 ∧ (makeUniformKnotVector 2 1 [5] = (false, [5]) ∧
      makeClampedUniformKnotVector 2 1 [5] = (false, [5])) :=
  ⟨by norm_num, builders_fail_leave_unchanged 2 1 [5] (by norm_num)⟩

/-- C9: on the success path both builders clear the output container first, so
the result does not depend on the container's prior contents. -/
theorem builders_output_independent_of_prior (d n : ℕ) (ks ks' : List ℚ)
    (h : d + 1 ≤ n) :
    makeUniformKnotVector d n ks = makeUniformKnotVector d n ks' ∧
    makeClampedUniformKnotVector d n ks = makeClampedUniformKnotVector d n ks' := by
  have hn : ¬ n < d + 1 := by omega
  constructor
  · unfold makeUniformKnotVector; rw [if_neg hn, if_neg hn]
  · unfold makeClampedUniformKnotVector; rw [if_neg hn, if_neg hn]

/-- Witness for C9 at `degree = 1`, `nCtrlPts = 2`, prior contents `[9]` vs `[]`. -/
theorem builders_output_independent_of_prior_witness :
    1 + 1 ≤ 2 ∧ (makeUniformKnotVector 1 2 [9] = makeUniformKnotVector 1 2 [] ∧
      makeClampedUniformKnotVector 1 2 [9] = makeClampedUniformKnotVector 1 2 []) :=
  ⟨by norm_num, builders_output_independent_of_prior 1 2 [9] [] (by norm_num)⟩

/-- C7: with more than `2*degree` knots, `clampKnotVectorLeft` makes the first
`degree + 1` entries equal to the old `knots[degree]` and leaves every entry
at index ≥ `degree` (and the length) unchanged. -/
theorem clampKnotVectorLeft_spec (d : ℕ) (ks : List ℚ) (h : 2 * d < ks.length) :
    (clampKnotVectorLeft d ks).length = ks.length ∧
    (∀ i, i ≤ d → (clampKnotVectorLeft d ks).getD i 0 = ks.getD d 0) ∧
    (∀ i, d ≤ i → (clampKnotVectorLeft d ks).getD i 0 = ks.getD i 0) := by
  unfold clampKnotVectorLeft
  refine ⟨foldl_set_length _ _ _, ?_, ?_⟩
  · intro i hi
    rw [foldl_set_getD]
    rcases eq_or_ne i d with rfl | hne
    · rw [if_neg (by omega)]
    · rw [if_pos ⟨by omega, by omega⟩]
  · intro i hi
    rw [foldl_set_getD, if_neg (by omega)]

/-- Witness for C7 at `degree = 1`, knots `[3, 4, 5]`. -/
theorem clampKnotVectorLeft_spec_witness :
    2 * 1 < ([3, 4, 5] : List ℚ).length ∧
    ((clampKnotVectorLeft 1 [3, 4, 5]).length = ([3, 4, 5] : List ℚ).length ∧
      (∀ i, i ≤ 1 →
        (clampKnotVectorLeft 1 [3, 4, 5]).getD i 0 =
          ([3, 4, 5] : List ℚ).getD 1 0) ∧
      (∀ i, 1 ≤ i →
        (clampKnotVectorLeft 1 [3, 4, 5]).getD i 0 =
          ([3, 4, 5] : List ℚ).getD i 0)) :=
  ⟨by norm_num, clampKnotVectorLeft_spec 1 [3, 4, 5] (by norm_num)⟩

theorem closedGo_isSome (d : ℕ) (ks : List ℚ) (hlen : d + 2 ≤ ks.length) :
    ∀ l : List ℕ, (∀ i ∈ l, i ≤ d + 1) → (closedGo d ks l).isSome = true := by
  intro l
  induction l with
  | nil => intro _; rfl
  | cons i rest ih =>
    intro hmem
    have hi : i ≤ d + 1 := hmem i (List.mem_cons_self i rest)
    have hcast : (d : ℤ) + 2 ≤ (ks.length : ℤ) := by exact_mod_cast hlen
    have h1 : i < ks.length := by omega
    have h2 : (0 : ℤ) ≤ (ks.length : ℤ) - (d : ℤ) - 2 + (i : ℤ) := by omega
    have h3 : ((ks.length : ℤ) - (d : ℤ) - 2 + (i : ℤ)).toNat < ks.length := by
      omega
    cases ha : ks.get? i with
    | none => rw [List.get?_eq_none] at ha; omega
    | some a =>
      cases hb : intGet ks ((ks.length : ℤ) - (d : ℤ) - 2 + (i : ℤ)) with
      | none =>
        unfold intGet at hb
        rw [if_pos h2, List.get?_eq_none] at hb
        omega
      | some b =>
        simp only [closedGo, ha, hb]
        split
        · rfl
        · exact ih (fun x hx => hmem x (List.mem_cons_of_mem _ hx))

theorem closedGo_oob (d : ℕ) (ks : List ℚ) (rest : List ℕ)
    (hlen : ks.length < d + 2) : closedGo d ks (0 :: rest) = none := by
  have hneg : ¬ (0 : ℤ) ≤ (ks.length : ℤ) - (d : ℤ) - 2 + ((0 : ℕ) : ℤ) := by
    have : (ks.length : ℤ) < (d : ℤ) + 2 := by exact_mod_cast hlen
    omega
  have hb : intGet ks ((ks.length : ℤ) - (d : ℤ) - 2 + ((0 : ℕ) : ℤ)) = none := by
    unfold intGet; rw [if_neg hneg]
  cases ha : ks.get? 0 with
  | none => simp only [closedGo, ha, hb]
  | some a => simp only [closedGo, ha, hb]

/-- C10: `isKnotVectorClosed` accesses `knots[i]` and
`knots[size - degree - 2 + i]` for every `i ≤ degree + 1`; all its accesses
are in bounds (the result is `some _`, never the out-of-range `none`) exactly
when the vector has at least `degree + 2` knots. -/
theorem isKnotVectorClosed_inbounds_iff (d : ℕ) (ks : List ℚ) :
    (isKnotVectorClosed d ks).isSome = true ↔ d + 2 ≤ ks.length := by
  constructor
  · intro hs
    by_contra hlen
    push_neg at hlen
    rw [isKnotVectorClosed, show d + 2 = (d + 1) + 1 from rfl,
      List.range_succ_eq_map, closedGo_oob d ks _ hlen] at hs
    exact Bool.noConfusion hs
  · intro hlen
    exact closedGo_isSome d ks hlen (List.range (d + 2))
      (fun i hi => by have := List.mem_range.mp hi; omega)

theorem uniformLoop_stop (step u : ℚ) (h : ¬ u ≤ 1) :
    ∀ fuel, uniformLoop step fuel u = [] := by
  intro fuel
  cases fuel with
  | zero => rfl
  | succ f => simp [uniformLoop, h]

theorem uniformLoop_run (m : ℕ) (hm : 1 ≤ m) :
    ∀ fuel k, k ≤ m → m - k < fuel →
      uniformLoop (1 / (m : ℚ)) fuel ((k : ℚ) * (1 / (m : ℚ))) =
        (List.range (m - k + 1)).map
          (fun j => ((k + j : ℕ) : ℚ) * (1 / (m : ℚ))) := by
  intro fuel
  induction fuel with
  | zero => intro k hk hf; omega
  | succ f ih =>
    intro k hk hf
    have hm0 : (0 : ℚ) < (m : ℚ) := by exact_mod_cast Nat.lt_of_lt_of_le Nat.zero_lt_one hm
    have hle : (k : ℚ) * (1 / (m : ℚ)) ≤ 1 := by
      rw [mul_one_div, div_le_one hm0]
      exact_mod_cast hk
    simp only [uniformLoop]
    rw [if_pos hle]
    rcases Nat.lt_or_ge k m with hkm | hkm
    · have hnext : (k : ℚ) * (1 / (m : ℚ)) + 1 / (m : ℚ) =
          ((k + 1 : ℕ) : ℚ) * (1 / (m : ℚ)) := by push_cast; ring
      rw [show m - k + 1 = (m - (k + 1) + 1) + 1 by omega,
        List.range_succ_eq_map, hnext, ih (k + 1) (by omega) (by omega)]
      simp only [List.map_cons, List.map_map]
      congr 1
      norm_num
      intro a _
      left
      ring
    · have hk' : k = m := by omega
      subst hk'
      have hone : (k : ℚ) * (1 / (k : ℚ)) = 1 := by
        rw [mul_one_div, div_self (ne_of_gt hm0)]
      have hstop : ¬ ((k : ℚ) * (1 / (k : ℚ)) + 1 / (k : ℚ) ≤ 1) := by
        rw [hone]
        intro hcon
        have h1m : (0 : ℚ) < 1 / (k : ℚ) := by positivity
        linarith
      rw [uniformLoop_stop _ _ hstop, Nat.sub_self,
        show List.range (0 + 1) = [0] by simp [List.range_succ]]
      simp only [List.map_cons, List.map_nil]
      norm_num

theorem isKnotVectorMonotonic_iff_chain' :
    ∀ l : List ℚ, isKnotVectorMonotonic l = true ↔
      List.Chain' (fun a b : ℚ => a ≤ b) l
  | [] => by simp [isKnotVectorMonotonic]
  | [a] => by simp [isKnotVectorMonotonic]
  | a :: b :: rest => by
    rw [isKnotVectorMonotonic, Bool.and_eq_true, decide_eq_true_eq,
      List.chain'_cons, isKnotVectorMonotonic_iff_chain' (b :: rest)]

theorem makeUniformKnotVector_run (d n : ℕ) (ks : List ℚ) (h : d + 1 ≤ n) :
    makeUniformKnotVector d n ks =
      (true, (List.range (n + d + 1)).map
        (fun i : ℕ => (i : ℚ) * (1 / ((n + d : ℕ) : ℚ)))) := by
  have hrun := uniformLoop_run (n + d) (by omega) (n + d + 1 + 1) 0 (by omega)
    (by omega)
  simp only [Nat.cast_zero, zero_mul, Nat.sub_zero, zero_add] at hrun
  unfold makeUniformKnotVector
  rw [if_neg (by omega)]
  show (true, uniformLoop (1 / (((n + d + 1 : ℕ) : ℚ) - 1)) ((n + d + 1) + 1) 0) = _
  rw [show (((n + d + 1 : ℕ) : ℚ) - 1) = ((n + d : ℕ) : ℚ) by push_cast; ring,
    hrun]

/-- C4: for every `degree` and every `nCtrlPts ≥ degree + 1`,
`makeUniformKnotVector` returns `true` and fills the output with exactly
`nCtrlPts + degree + 1` knots `i * (1/(nKnots-1))`, starting at `0`, ending
at `1`, and monotonic. -/
theorem makeUniformKnotVector_spec (d n : ℕ) (ks : List ℚ) (h : d + 1 ≤ n) :
    (makeUniformKnotVector d n ks).1 = true ∧
    (makeUniformKnotVector d n ks).2.length = n + d + 1 ∧
    (makeUniformKnotVector d n ks).2 =
      (List.range (n + d + 1)).map
        (fun i : ℕ => (i : ℚ) * (1 / ((n + d : ℕ) : ℚ))) ∧
    (makeUniformKnotVector d n ks).2.getD 0 0 = 0 ∧
    (makeUniformKnotVector d n ks).2.getD (n + d) 0 = 1 ∧
    isKnotVectorMonotonic (makeUniformKnotVector d n ks).2 = true := by
  rw [makeUniformKnotVector_run d n ks h]
  have hm0 : (0 : ℚ) < ((n + d : ℕ) : ℚ) := by
    have : 1 ≤ n + d := by omega
    exact_mod_cast Nat.lt_of_lt_of_le Nat.zero_lt_one this
  refine ⟨rfl, by simp, rfl, ?_, ?_, ?_⟩
  · rw [List.getD_eq_getElem?_getD,
      List.getElem?_eq_getElem (by simp)]
    simp
  · rw [List.getD_eq_getElem?_getD,
      List.getElem?_eq_getElem (by simp)]
    simp only [List.getElem_map, List.getElem_range, Option.getD_some]
    rw [mul_one_div, div_self (ne_of_gt hm0)]
  · rw [isKnotVectorMonotonic_iff_chain', List.chain'_map,
      show n + d + 1 = (n + d) + 1 from rfl, List.chain'_range_succ]
    intro i hi
    have : ((i : ℚ)) ≤ ((i + 1 : ℕ) : ℚ) := by exact_mod_cast Nat.le_succ i
    have h1m : (0 : ℚ) ≤ 1 / ((n + d : ℕ) : ℚ) := by positivity
    calc (i : ℚ) * (1 / ((n + d : ℕ) : ℚ))
        ≤ ((i + 1 : ℕ) : ℚ) * (1 / ((n + d : ℕ) : ℚ)) := by
          apply mul_le_mul_of_nonneg_right this h1m
      _ = ((i + 1 : ℕ) : ℚ) * (1 / ((n + d : ℕ) : ℚ)) := rfl

/-- Witness for C4 at `degree = 1`, `nCtrlPts = 2`, prior contents `[]`. -/
theorem makeUniformKnotVector_spec_witness :
    1 + 1 ≤ 2 ∧
    ((makeUniformKnotVector 1 2 []).1 = true ∧
      (makeUniformKnotVector 1 2 []).2.length = 2 + 1 + 1 ∧
      (makeUniformKnotVector 1 2 []).2 =
        (List.range (2 + 1 + 1)).map
          (fun i : ℕ => (i : ℚ) * (1 / ((2 + 1 : ℕ) : ℚ))) ∧
      (makeUniformKnotVector 1 2 []).2.getD 0 0 = 0 ∧
      (makeUniformKnotVector 1 2 []).2.getD (2 + 1) 0 = 1 ∧
      isKnotVectorMonotonic (makeUniformKnotVector 1 2 []).2 = true) :=
  ⟨by norm_num, makeUniformKnotVector_spec 1 2 [] (by norm_num)⟩

theorem makeClampedUniformKnotVector_run (d n : ℕ) (ks : List ℚ)
    (h : d + 1 ≤ n) :
    makeClampedUniformKnotVector d n ks =
      (true, List.replicate d 0 ++
        (List.range (n - d + 1)).map
          (fun i : ℕ => (i : ℚ) * (1 / ((n - d : ℕ) : ℚ))) ++
        List.replicate d 1) := by
  have h1 : ((n + d + 1 : ℕ) : ℤ) - 2 * (d : ℤ) = ((n - d + 1 : ℕ) : ℤ) := by
    omega
  have h2 : ((((n - d + 1 : ℕ) : ℤ) : ℚ) - 1) = ((n - d : ℕ) : ℚ) := by
    push_cast
    ring
  simp only [makeClampedUniformKnotVector, h1, h2]
  rw [if_neg (by omega), if_pos (by exact_mod_cast Nat.succ_pos (n - d)),
    Int.toNat_ofNat]

/-- C5: for every `degree` and every `nCtrlPts ≥ degree + 1`,
`makeClampedUniformKnotVector` produces `degree` zeros, then
`nIntKnots = nKnots - 2*degree` (here `nCtrlPts - degree + 1`) evenly spaced
interior knots `i * (1/(nIntKnots-1))` over `[0,1]`, then `degree` ones:
`nCtrlPts + degree + 1` knots in total, the first `degree` equal to `0`, the
last `degree` equal to `1`, and the interior strictly increasing. -/
theorem makeClampedUniformKnotVector_spec (d n : ℕ) (ks : List ℚ)
    (h : d + 1 ≤ n) :
    (makeClampedUniformKnotVector d n ks).1 = true ∧
    (makeClampedUniformKnotVector d n ks).2 =
      List.replicate d 0 ++
        (List.range (n - d + 1)).map
          (fun i : ℕ => (i : ℚ) * (1 / ((n - d : ℕ) : ℚ))) ++
        List.replicate d 1 ∧
    (makeClampedUniformKnotVector d n ks).2.length = n + d + 1 ∧
    (∀ i, i < d → (makeClampedUniformKnotVector d n ks).2.getD i 0 = 0) ∧
    (∀ i, i < d →
      (makeClampedUniformKnotVector d n ks).2.getD (n + d - i) 0 = 1) ∧
    List.Chain' (fun a b : ℚ => a < b)
      ((List.range (n - d + 1)).map
        (fun i : ℕ => (i : ℚ) * (1 / ((n - d : ℕ) : ℚ)))) := by
  rw [makeClampedUniformKnotVector_run d n ks h]
  have hnd : 1 ≤ n - d := by omega
  have hm0 : (0 : ℚ) < ((n - d : ℕ) : ℚ) := by
    exact_mod_cast Nat.lt_of_lt_of_le Nat.zero_lt_one hnd
  refine ⟨rfl, rfl, ?_, ?_, ?_, ?_⟩
  · simp only [List.length_append, List.length_replicate, List.length_map,
      List.length_range]
    omega
  · intro i hi
    rw [List.getD_eq_getElem?_getD, List.append_assoc,
      List.getElem?_append_left (by simp; omega),
      List.getElem?_eq_getElem (by simp; omega)]
    simp
  · intro i hi
    rw [List.getD_eq_getElem?_getD, List.append_assoc,
      List.getElem?_append_right (by simp; omega),
      List.getElem?_append_right (by simp; omega),
      List.getElem?_eq_getElem (by simp; omega)]
    simp
  · rw [List.chain'_map, List.chain'_range_succ]
    intro i hi
    have hcast : ((i : ℚ)) < ((i + 1 : ℕ) : ℚ) := by
      exact_mod_cast Nat.lt_succ_self i
    have h1m : (0 : ℚ) < 1 / ((n - d : ℕ) : ℚ) := by positivity
    exact mul_lt_mul_of_pos_right hcast h1m

/-- Witness for C5 at `degree = 1`, `nCtrlPts = 2`, prior contents `[]`. -/
theorem makeClampedUniformKnotVector_spec_witness :
    1 + 1 ≤ 2 ∧
    ((makeClampedUniformKnotVector 1 2 []).1 = true ∧
      (makeClampedUniformKnotVector 1 2 []).2 =
        List.replicate 1 0 ++
          (List.range (2 - 1 + 1)).map
            (fun i : ℕ => (i : ℚ) * (1 / ((2 - 1 : ℕ) : ℚ))) ++
          List.replicate 1 1 ∧
      (makeClampedUniformKnotVector 1 2 []).2.length = 2 + 1 + 1 ∧
      (∀ i, i < 1 → (makeClampedUniformKnotVector 1 2 []).2.getD i 0 = 0) ∧
      (∀ i, i < 1 →
        (makeClampedUniformKnotVector 1 2 []).2.getD (2 + 1 - i) 0 = 1) ∧
      List.Chain' (fun a b : ℚ => a < b)
        ((List.range (2 - 1 + 1)).map
          (fun i : ℕ => (i : ℚ) * (1 / ((2 - 1 : ℕ) : ℚ))))) :=
  ⟨by norm_num, makeClampedUniformKnotVector_spec 1 2 [] (by norm_num)⟩

/-- C2 (counter-evidence): on the clamped vector `[0,0,0,1/2,1,1,1]` with
`u = 7/10` the span is `3` (`knots[3] = 1/2 ≤ 7/10 < knots[4] = 1`), but the
source places the new knot **at** index `span` — before the old
`knots[span]` — yielding `[0,0,0,7/10,1/2,1,1,1]`: the knot is not inserted
immediately after index `span` and the resulting vector is not
non-decreasing. -/
theorem curveInsertKnot_not_after_span :
    findSpan (7/10) 2 [0, 0, 0, 1/2, 1, 1, 1] = 3 ∧
    (curveInsertKnot (7/10) 2 [0, 0, 0, 1/2, 1, 1, 1]
      [(0, 0), (1, 2), (3, 3), (4, 0)]).1 = [0, 0, 0, 7/10, 1/2, 1, 1, 1] ∧
    isKnotVectorMonotonic
      (curveInsertKnot (7/10) 2 [0, 0, 0, 1/2, 1, 1, 1]
        [(0, 0), (1, 2), (3, 3), (4, 0)]).1 = false := by
  have hspan : findSpan (7/10) 2 [0, 0, 0, 1/2, 1, 1, 1] = 3 := by
    norm_num [findSpan, List.range_succ, List.filter]
  have hknots : (curveInsertKnot (7/10) 2 [0, 0, 0, 1/2, 1, 1, 1]
      [(0, 0), (1, 2), (3, 3), (4, 0)]).1 = [0, 0, 0, 7/10, 1/2, 1, 1, 1] := by
    rw [curveInsertKnot, hspan]
    norm_num [List.insertIdx]
  refine ⟨hspan, hknots, ?_⟩
  rw [hknots]
  norm_num [isKnotVectorMonotonic]

/-- C3 (counter-evidence): `u = 2` lies outside the domain `[0, 1]` of the
vector `[0,0,0,1/2,1,1,1]`, yet `curveInsertKnot` — which returns `void` in
the source and performs no domain check — still mutates the knot vector
(here to `[0,0,0,1/2,1,2,1,1]`, one knot longer); no `OutOfDomain` error
exists anywhere in the source. -/
theorem curveInsertKnot_no_domain_check :
    (curveInsertKnot 2 2 [0, 0, 0, 1/2, 1, 1, 1]
      [(0, 0), (1, 2), (3, 3), (4, 0)]).1 = [0, 0, 0, 1/2, 1, 2, 1, 1] ∧
    (curveInsertKnot 2 2 [0, 0, 0, 1/2, 1, 1, 1]
      [(0, 0), (1, 2), (3, 3), (4, 0)]).1 ≠ [0, 0, 0, 1/2, 1, 1, 1] := by
  have hspan : findSpan 2 2 [0, 0, 0, 1/2, 1, 1, 1] = 5 := by
    norm_num [findSpan, List.range_succ, List.filter]
  have hknots : (curveInsertKnot 2 2 [0, 0, 0, 1/2, 1, 1, 1]
      [(0, 0), (1, 2), (3, 3), (4, 0)]).1 = [0, 0, 0, 1/2, 1, 2, 1, 1] := by
    rw [curveInsertKnot, hspan]
    norm_num [List.insertIdx]
  refine ⟨hknots, ?_⟩
  rw [hknots]
  intro hcon
  have hlen := congrArg List.length hcon
  simp at hlen

/-- C1 (counter-evidence): the spec's own scenario — degree 2, control points
`(0,0),(1,2),(3,3),(4,0)`, clamped knots `[0,0,0,1/2,1,1,1]`, inserting
`u = 1/2` (an interior knot of multiplicity 1 < degree, and `1/4` is not a
knot).  The source's blend loop reads the post-insertion knot vector and the
already-overwritten neighbour `cp[i-1]`, producing control points
`(0,0),(1,2),(3,3),(3,3),(4,0)` instead of Boehm's
`(0,0),(1,2),(2,5/2),(3,3),(4,0)`; evaluating the curve at `1/4` then gives
`(5/4,7/4)` where the original curve gives `(1,13/8)` — the shape is not
preserved. -/
theorem curveInsertKnot_changes_shape :
    evalCurve 2 [0, 0, 0, 1/2, 1, 1, 1]
      [(0, 0), (1, 2), (3, 3), (4, 0)] (1/4) = (1, 13/8) ∧
    curveInsertKnot (1/2) 2 [0, 0, 0, 1/2, 1, 1, 1]
      [(0, 0), (1, 2), (3, 3), (4, 0)] =
      ([0, 0, 0, 1/2, 1/2, 1, 1, 1],
        [(0, 0), (1, 2), (3, 3), (3, 3), (4, 0)]) ∧
    evalCurve 2 [0, 0, 0, 1/2, 1/2, 1, 1, 1]
      [(0, 0), (1, 2), (3, 3), (3, 3), (4, 0)] (1/4) = (5/4, 7/4) ∧
    ((1 : ℚ), (13/8 : ℚ)) ≠ ((5/4 : ℚ), (7/4 : ℚ)) := by
  have hspan : findSpan (1/2) 2 [0, 0, 0, 1/2, 1, 1, 1] = 3 := by
    norm_num [findSpan, List.range_succ, List.filter]
  refine ⟨?_, ?_, ?_, by norm_num⟩
  · norm_num [evalCurve, basisFun, List.range_succ, ptAdd, ptSmul]
  · rw [curveInsertKnot, hspan]
    norm_num [curveBlend, List.range_succ, List.insertIdx, ptAdd, ptSmul]
  · norm_num [evalCurve, basisFun, List.range_succ, ptAdd, ptSmul]

/-- Check of the evaluation model: the spec's Boehm insertion (`boehmInsert`,
pre-insertion knots, fresh buffer) at the same input yields the textbook
control points and preserves the curve point at the sample parameters `1/4`
and `3/4`, so the shape change in `curveInsertKnot_changes_shape` is the
fault of the source's recurrence, not of the evaluation model. -/
theorem boehmInsert_preserves_shape_sample :
    boehmInsert (1/2) 2 [0, 0, 0, 1/2, 1, 1, 1]
      [(0, 0), (1, 2), (3, 3), (4, 0)] =
      ([0, 0, 0, 1/2, 1/2, 1, 1, 1],
        [(0, 0), (1, 2), (2, 5/2), (3, 3), (4, 0)]) ∧
    evalCurve 2 [0, 0, 0, 1/2, 1/2, 1, 1, 1]
      [(0, 0), (1, 2), (2, 5/2), (3, 3), (4, 0)] (1/4) =
      evalCurve 2 [0, 0, 0, 1/2, 1, 1, 1]
        [(0, 0), (1, 2), (3, 3), (4, 0)] (1/4) ∧
    evalCurve 2 [0, 0, 0, 1/2, 1/2, 1, 1, 1]
      [(0, 0), (1, 2), (2, 5/2), (3, 3), (4, 0)] (3/4) =
      evalCurve 2 [0, 0, 0, 1/2, 1, 1, 1]
        [(0, 0), (1, 2), (3, 3), (4, 0)] (3/4) := by
  have hspan : findSpan (1/2) 2 [0, 0, 0, 1/2, 1, 1, 1] = 3 := by
    norm_num [findSpan, List.range_succ, List.filter]
  refine ⟨?_, ?_, ?_⟩
  · rw [boehmInsert, hspan]
    norm_num [List.range_succ, List.insertIdx, ptAdd, ptSmul]
  · norm_num [evalCurve, basisFun, List.range_succ, ptAdd, ptSmul]
  · norm_num [evalCurve, basisFun, List.range_succ, ptAdd, ptSmul]

/-- C8 (counter-evidence): degree 1, shared knot vector `[0,1/4,1/2,3/4,1]`,
`u = 3/10` (span 1), and three **identical** rows `[(1,0),(0,1),(2,2)]`.
The source computes the blend coefficient as
`a = (u - knots[i]) / (knots[i + deg] - knots[j])` with `i` the row index, so
row 1 gets `a = 0` and keeps `(1,0)` at position 1 while row 2 gets
`a = 1/4` and writes `(3/4,0)` there: identical rows produce different
results, so the coefficient depends on the row index, contradicting the
claimed row-independent curve recurrence. -/
theorem surfaceInsertKnotU_blend_depends_on_row :
    (surfaceInsertKnotU (3/10) 1 [0, 1/4, 1/2, 3/4, 1]
      [[(1, 0), (0, 1), (2, 2)], [(1, 0), (0, 1), (2, 2)],
        [(1, 0), (0, 1), (2, 2)]]).2.getD 1 [] =
      [(1, 0), (1, 0), (0, 1), (2, 2)] ∧
    (surfaceInsertKnotU (3/10) 1 [0, 1/4, 1/2, 3/4, 1]
      [[(1, 0), (0, 1), (2, 2)], [(1, 0), (0, 1), (2, 2)],
        [(1, 0), (0, 1), (2, 2)]]).2.getD 2 [] =
      [(1, 0), (3/4, 0), (0, 1), (2, 2)] ∧
    ([(1, 0), (1, 0), (0, 1), (2, 2)] : List Pt) ≠
      [(1, 0), (3/4, 0), (0, 1), (2, 2)] := by
  have hspan : findSpan (3/10) 1 [0, 1/4, 1/2, 3/4, 1] = 1 := by
    norm_num [findSpan, List.range_succ, List.filter]
  refine ⟨?_, ?_, by norm_num⟩
  · rw [surfaceInsertKnotU, hspan]
    norm_num [surfaceBlendRow, List.range_succ, List.insertIdx, ptAdd, ptSmul]
  · rw [surfaceInsertKnotU, hspan]
    norm_num [surfaceBlendRow, List.range_succ, List.insertIdx, ptAdd, ptSmul]
